import Mathlib

/-!
Verification of the sqlite-clone core: a shallow embedding of the page /
b-tree / record decoding pipeline (src/sqlite/mod.rs, src/sqlite/cells.rs,
src/sqlite/record.rs), the SQL statement structures and projection
(src/sqlite/mod.rs), the query output loop (src/main.rs), and the duplicate
page-fetch implementation (src/internals.rs).

Bytes are modelled as `Nat` (a byte is < 256 where a claim needs it).
`nom`-style parsers become `List Nat → Option (List Nat × α)` where the
first component of the pair is the remaining input and `none` is a parse
error.  Rust panics (`unreachable!`, out-of-bounds slicing) are modelled as
a third, distinguished outcome where a claim depends on the distinction.
-/

set_option maxRecDepth 100000

namespace Sqlite

/-- Modelled from the spec: the varint decoder.  The module
`src/src/sqlite/varint.rs` is declared (`pub(crate) mod varint;` in
src/sqlite/mod.rs) but the file is absent from the sources, so the decoder
is taken from spec §4.1: up to 9 input bytes; for the first 8 candidate
bytes the high bit is a continuation flag and the low 7 bits are payload,
most-significant group first; if all 8 have the continuation bit set, a 9th
byte contributes its full 8 bits; exhausting the input before termination
is a truncation error.  `i` counts bytes consumed so far. -/
def varintGo : Nat → Nat → List Nat → Option (List Nat × Nat)
  | _, _, [] => none
  | acc, i, b :: rest =>
    if i = 8 then some (rest, acc * 256 + b)
    else if b < 128 then some (rest, acc * 128 + b)
    else varintGo (acc * 128 + b % 128) (i + 1) rest

/-- Modelled from the spec: entry point of the varint decoder (§4.1). -/
def varint (input : List Nat) : Option (List Nat × Nat) :=
  varintGo 0 0 input

/-- nom `be_u16`: big-endian 16-bit integer. -/
def beU16 : List Nat → Option (List Nat × Nat)
  | hi :: lo :: rest => some (rest, hi * 256 + lo)
  | _ => none

/-- nom `be_u32`: big-endian 32-bit integer. -/
def beU32 : List Nat → Option (List Nat × Nat)
  | b3 :: b2 :: b1 :: b0 :: rest =>
    some (rest, ((b3 * 256 + b2) * 256 + b1) * 256 + b0)
  | _ => none

/-- nom `take n`: split off exactly `n` bytes, error if fewer remain. -/
def takeBytes (n : Nat) (l : List Nat) : Option (List Nat × List Nat) :=
  if n ≤ l.length then some (l.drop n, l.take n) else none

/-- `PageKind` from src/sqlite/mod.rs. -/
inductive PageKind where
  | indexInterior
  | tableInterior
  | indexLeaf
  | tableLeaf
deriving DecidableEq

/-- `PageKind::is_interior` from src/sqlite/mod.rs. -/
def PageKind.is_interior : PageKind → Bool
  | .indexInterior | .tableInterior => true
  | _ => false

/-- `impl TryFrom<u8> for PageKind` from src/sqlite/mod.rs: 2, 5, 10, 13 are
the valid kind bytes, anything else is an error. -/
def PageKind.tryFrom (value : Nat) : Option PageKind :=
  if value = 2 then some .indexInterior
  else if value = 5 then some .tableInterior
  else if value = 10 then some .indexLeaf
  else if value = 13 then some .tableLeaf
  else none

/-- `BtreeHeader` from src/sqlite/mod.rs. -/
structure BtreeHeader where
  kind : PageKind
  first_freeblock : Nat
  cell_count : Nat
  cell_contents : Nat
  fragmented_free_bytes : Nat
  rightmost_pointer : Option Nat
deriving DecidableEq

/-- `parse_btree_header` from src/sqlite/mod.rs: a `tuple` of
`(u8, be_u16, be_u16, be_u16, u8, be_u32)` — the trailing `be_u32` is
parsed unconditionally; `rightmost_pointer` is then discarded via
`is_interior().then_some(..)` for leaf kinds. -/
def parse_btree_header : List Nat → Option (List Nat × BtreeHeader)
  | k :: f1 :: f0 :: c1 :: c0 :: s1 :: s0 :: fb :: r3 :: r2 :: r1 :: r0 :: rest =>
    (PageKind.tryFrom k).map (fun kind =>
      (rest,
       { kind
         first_freeblock := f1 * 256 + f0
         cell_count := c1 * 256 + c0
         cell_contents := s1 * 256 + s0
         fragmented_free_bytes := fb
         rightmost_pointer :=
           if kind.is_interior then
             some (((r3 * 256 + r2) * 256 + r1) * 256 + r0)
           else none }))
  | _ => none

/-- `Payload` from src/sqlite/cells.rs (`overflow` is never populated by the
cell decoder). -/
structure Payload where
  size : Nat
  payload : List Nat
  overflow : Option Nat
deriving DecidableEq

/-- `Cell` from src/sqlite/cells.rs. -/
inductive Cell where
  | tableLeaf (rowid : Nat) (payload : Payload)
  | tableInterior (left_child_page : Nat) (rowid : Nat)
  | indexLeaf (payload : Payload)
  | indexInterior (left_child_page : Nat) (payload : Payload)
deriving DecidableEq

/-- `BtreeHeader::parse_cell` from src/sqlite/cells.rs: decode one cell
according to the page kind. -/
def parse_cell (h : BtreeHeader) (input : List Nat) :
    Option (List Nat × Cell) :=
  match h.kind with
  | .tableLeaf => do
    let (input, size) ← varint input
    let (input, rowid) ← varint input
    let (input, payload) ← takeBytes size input
    some (input, Cell.tableLeaf rowid { size, payload, overflow := none })
  | .tableInterior => do
    let (input, left_child_page) ← beU32 input
    let (input, rowid) ← varint input
    some (input, Cell.tableInterior left_child_page rowid)
  | .indexLeaf => do
    let (input, size) ← varint input
    let (input, payload) ← takeBytes size input
    some (input, Cell.indexLeaf { size, payload, overflow := none })
  | .indexInterior => do
    let (input, left_child_page) ← beU32 input
    let (input, size) ← varint input
    let (input, payload) ← takeBytes size input
    some (input, Cell.indexInterior left_child_page
      { size, payload, overflow := none })

/-- `Page` from src/sqlite/mod.rs. -/
structure Page where
  page_id : Nat
  data : List Nat
  header : BtreeHeader

/-- The cell-pointer-array start offset computed inside `Page::cells`
(src/sqlite/mod.rs): 108 whenever `page_id == 1` (the code assumes the
first page is a leaf page), otherwise 12 for interior kinds and 8 for leaf
kinds. -/
def Page.cellStart (p : Page) : Nat :=
  if p.page_id = 1 then 108
  else if p.header.kind.is_interior then 12
  else 8

/-- The cell pointer array slice `&self[start..count * 2 + start]` taken by
`Page::cells`. -/
def Page.ptrArray (p : Page) : List Nat :=
  (p.data.drop p.cellStart).take (p.header.cell_count * 2)

/-- `CellIter::next` from src/sqlite/mod.rs, unfolded to a list: read one
big-endian 16-bit pointer from the pointer array, parse the cell the
pointer addresses, and stop — via `.ok()?`, i.e. silently — as soon as
either step fails. -/
def cellIterGo (p : Page) : List Nat → List Cell
  | hi :: lo :: rest =>
    match parse_cell p.header (p.data.drop (hi * 256 + lo)) with
    | none => []
    | some (_, cell) => cell :: cellIterGo p rest
  | _ => []

/-- `Page::cells` from src/sqlite/mod.rs.  The slice
`&self[start..count * 2 + start]` panics when it exceeds the page buffer;
that panic is modelled as `none`. -/
def Page.cells (p : Page) : Option (List Cell) :=
  if p.cellStart + p.header.cell_count * 2 ≤ p.data.length then
    some (cellIterGo p p.ptrArray)
  else none

/-- Reinterpret a 64-bit unsigned value as a signed one (Rust's `as i64`). -/
def u64ToI64 (x : Nat) : Int :=
  if x < 2 ^ 63 then (x : Int) else (x : Int) - 2 ^ 64

/-- Two's-complement reading of the low `w` bits (nom's `be_iN` parsers
followed by Rust's widening `.into()`). -/
def sext (w : Nat) (x : Nat) : Int :=
  if x < 2 ^ (w - 1) then (x : Int) else (x : Int) - 2 ^ w

/-- `Value` from src/sqlite/record.rs.  A `Float` is kept as its raw 8-byte
big-endian bit pattern: no claim depends on floating-point arithmetic. -/
inductive Value where
  | null
  | integer (n : Int)
  | float (bits : Nat)
  | blob (b : List Nat)
  | string (s : String)
deriving DecidableEq

/-- `String::from_utf8_lossy` restricted to the ASCII fragment exercised by
the program's data: bytes ≥ 0x80 become the replacement character. -/
def utf8Lossy (bs : List Nat) : String :=
  String.mk (bs.map (fun b => if b < 128 then Char.ofNat b else Char.ofNat 0xFFFD))

/-- `RecordCode` from src/sqlite/record.rs. -/
inductive RecordCode where
  | null
  | i8
  | i16
  | i24
  | i32
  | i48
  | i64
  | f64
  | zero
  | one
  | blob (n : Nat)
  | string (n : Nat)
deriving DecidableEq

/-- `impl From<u64> for RecordCode` from src/sqlite/record.rs.  The `_` arm
executes `unreachable!("serial type 10 and 11 are reserved.")`, i.e. it
panics; the panic is modelled as `none`. -/
def RecordCode.fromU64 (value : Nat) : Option RecordCode :=
  if value = 0 then some .null
  else if value = 1 then some .i8
  else if value = 2 then some .i16
  else if value = 3 then some .i24
  else if value = 4 then some .i32
  else if value = 5 then some .i48
  else if value = 6 then some .i64
  else if value = 7 then some .f64
  else if value = 8 then some .zero
  else if value = 9 then some .one
  else if 12 ≤ value ∧ value % 2 = 0 then some (.blob ((value - 12) / 2))
  else if 13 ≤ value ∧ value % 2 = 1 then some (.string ((value - 13) / 2))
  else none

/-- `RecordCode::parse` from src/sqlite/record.rs.  The `I48` arm takes 6
bytes, folds them big-endian with `x = (x << 8) | b`, ors in
`0xff_ff_00_00_00_00_00_00` when the first byte has its top bit set, and
reinterprets the result `as i64`. -/
def RecordCode.parse : RecordCode → List Nat → Option (List Nat × Value)
  | .null, input => some (input, .null)
  | .i8, input => do
    let (input, n) ← takeBytes 1 input
    some (input, .integer (sext 8 (n.foldl (fun x b => x * 256 + b) 0)))
  | .i16, input => do
    let (input, n) ← takeBytes 2 input
    some (input, .integer (sext 16 (n.foldl (fun x b => x * 256 + b) 0)))
  | .i24, input => do
    let (input, n) ← takeBytes 3 input
    some (input, .integer (sext 24 (n.foldl (fun x b => x * 256 + b) 0)))
  | .i32, input => do
    let (input, n) ← takeBytes 4 input
    some (input, .integer (sext 32 (n.foldl (fun x b => x * 256 + b) 0)))
  | .i48, input =>
    match input with
    | b0 :: b1 :: b2 :: b3 :: b4 :: b5 :: rest =>
      let x : Nat := [b0, b1, b2, b3, b4, b5].foldl (fun x b => (x <<< 8) ||| b) 0
      let x : Nat := if 0x80 ≤ b0 then x ||| 0xffff000000000000 else x
      some (rest, .integer (u64ToI64 x))
    | _ => none
  | .i64, input => do
    let (input, n) ← takeBytes 8 input
    some (input, .integer (sext 64 (n.foldl (fun x b => x * 256 + b) 0)))
  | .f64, input => do
    let (input, n) ← takeBytes 8 input
    some (input, .float (n.foldl (fun x b => x * 256 + b) 0))
  | .zero, input => some (input, .integer 0)
  | .one, input => some (input, .integer 1)
  | .blob n, input => do
    let (input, b) ← takeBytes n input
    some (input, .blob b)
  | .string n, input => do
    let (input, s) ← takeBytes n input
    some (input, .string (utf8Lossy s))

/-- Outcome of `parse_payload`: a nom success, a nom error surfaced to the
caller, or a Rust panic (which no caller observes as an error). -/
inductive PayloadResult where
  | ok (rest : List Nat) (vals : List Value)
  | err
  | panic
deriving DecidableEq

/-- Outcome of `many1(into(varint))` over the serial-type header: the codes,
a nom error, or the panic raised by `RecordCode::from` on codes 10/11. -/
inductive CodesResult where
  | ok (codes : List RecordCode)
  | err
  | panic
deriving DecidableEq

/-- `many1(into(varint))`: repeatedly decode a varint and convert it to a
`RecordCode`, collecting until the varint parser fails; at least one
element is required.  `fuel` is an upper bound on the number of iterations
(each iteration consumes at least one byte, so the initial input length
suffices). -/
def many1CodesGo : Nat → List Nat → List RecordCode → CodesResult
  | 0, _, acc => if acc.isEmpty then .err else .ok acc.reverse
  | fuel + 1, l, acc =>
    match varint l with
    | none => if acc.isEmpty then .err else .ok acc.reverse
    | some (rest, v) =>
      match RecordCode.fromU64 v with
      | none => .panic
      | some c => many1CodesGo fuel rest (c :: acc)

/-- The body loop of `parse_payload`: decode one value per code in order,
failing (with `?`) as soon as one value parser fails. -/
def parseBody : List RecordCode → List Nat → Option (List Nat × List Value)
  | [], body => some (body, [])
  | c :: cs, body => do
    let (body, v) ← c.parse body
    let (rest, vs) ← parseBody cs body
    some (rest, v :: vs)

/-- `parse_payload` from src/sqlite/record.rs.  The slices
`&input[..header_size]` / `&input[header_size..]` panic when `header_size`
exceeds the input length; `RecordCode::from` panics on serial types 10/11;
all other failures are nom errors surfaced via `?`. -/
def parse_payload (input : List Nat) : PayloadResult :=
  match varint input with
  | none => .err
  | some (_, header_size) =>
    if header_size ≤ input.length then
      let header := input.take header_size
      match varint header with
      | none => .err
      | some (header, _) =>
        match many1CodesGo header.length header [] with
        | .panic => .panic
        | .err => .err
        | .ok codes =>
          let body := input.drop header_size
          match parseBody codes body with
          | none => .err
          | some (rest, records) => .ok rest records
    else .panic

/-- `impl TryFrom<Cell> for Vec<Value>` from src/sqlite/cells.rs:
`get_payload()` is `None` for table-interior cells (an error), otherwise
the payload is parsed. -/
def rowOfCell : Cell → PayloadResult
  | .tableLeaf _ p => parse_payload p.payload
  | .tableInterior _ _ => .err
  | .indexLeaf p => parse_payload p.payload
  | .indexInterior _ p => parse_payload p.payload

/-- `Select` from src/sqlite/mod.rs. -/
structure Select where
  name : String
  columns : List String
deriving DecidableEq

/-- `CreateTable` from src/sqlite/mod.rs. -/
structure CreateTable where
  name : String
  columns : List String
  key : Option String
deriving DecidableEq

/-- `CreateTable::select` from src/sqlite/mod.rs: for each requested column
name, `position` of that name in the declared columns, `flat_map`ped (so a
name that is absent contributes nothing). -/
def CreateTable.select (ct : CreateTable) (sel : Select) : List Nat :=
  sel.columns.filterMap (fun sc => ct.columns.findIdx? (fun cc => cc = sc))

/-- `Display for Value` from src/sqlite/record.rs.  Blobs print with the
`{:?}` debug format of `Vec<u8>`; the display of floats is not modelled
(no claim touches it). -/
def valueToString : Value → String
  | .null => "NULL"
  | .integer n => toString n
  | .float _ => ""
  | .blob b => "[" ++ String.intercalate ", " (b.map (fun x => toString x)) ++ "]"
  | .string s => s

/-- One iteration of the query loop in src/main.rs: for each projected
index `s`, push `row[*s].to_string()` (indexing out of range panics,
modelled as `none`), then join the fields with `"|"`.  No rowid
substitution is performed anywhere in this loop. -/
def queryRowLine (selected : List Nat) (row : List Value) : Option String :=
  (selected.mapM (fun s => row.get? s)).map
    (fun vals => String.intercalate "|" (vals.map valueToString))

/-- The character class `[A-Za-z]` of the SELECT regex. -/
def alphaCh (c : Char) : Bool :=
  ('A' ≤ c && c ≤ 'Z') || ('a' ≤ c && c ≤ 'z')

/-- The character class `[A-Za-z, ]` of the SELECT regex's first group. -/
def cls1Ch (c : Char) : Bool :=
  alphaCh c || c = ',' || c = ' '

/-- Strip a case-insensitive literal from the head of the input (ASCII case
folding, which is what the regex's literals `SELECT `/` FROM ` need). -/
def ciStrip : List Char → List Char → Option (List Char)
  | [], l => some l
  | _ :: _, [] => none
  | c :: lit, x :: l => if x.toLower = c.toLower then ciStrip lit l else none

/-- The literal `"SELECT "` of the regex, lowercased. -/
def litSelect : List Char := ['s', 'e', 'l', 'e', 'c', 't', ' ']

/-- The literal `" FROM "` of the regex, lowercased. -/
def litFrom : List Char := [' ', 'f', 'r', 'o', 'm', ' ']

/-- After giving back part of the greedy first group: the rest of the
pattern (` FROM ` then at least one `[A-Za-z]`) must match here. -/
def fromOk (l : List Char) : Bool :=
  match ciStrip litFrom l with
  | some (c :: _) => alphaCh c
  | _ => false

/-- Greedy backtracking over the first group's length: try the longest
candidate first (`k` down to 1); on success the captures are the first
group and the maximal `[A-Za-z]` run after ` FROM `. -/
def tryGroup1 (rest : List Char) : Nat → Option (List Char × List Char)
  | 0 => none
  | k + 1 =>
    if fromOk (rest.drop (k + 1)) then
      some (rest.take (k + 1), ((rest.drop (k + 1)).drop 6).takeWhile alphaCh)
    else tryGroup1 rest k

/-- Try to match `SELECT ([A-Za-z, ]+) FROM ([A-Za-z]+)` (case-insensitive)
anchored at the head of the input, with the regex's greedy semantics. -/
def matchSelectAt (s : List Char) : Option (List Char × List Char) :=
  match ciStrip litSelect s with
  | none => none
  | some rest => tryGroup1 rest (rest.takeWhile cls1Ch).length

/-- `Regex::captures`: the match may start anywhere, at the leftmost
possible position. -/
def searchSelect : List Char → Option (List Char × List Char)
  | [] => matchSelectAt []
  | c :: t =>
    match matchSelectAt (c :: t) with
    | some r => some r
    | none => searchSelect t

/-- Rust's `str::split(", ")`: split at each left-to-right, non-overlapping
occurrence of the two-character separator. -/
def splitCommaSpace : List Char → List (List Char)
  | [] => [[]]
  | ',' :: ' ' :: rest => [] :: splitCommaSpace rest
  | c :: rest =>
    match splitCommaSpace rest with
    | [] => [[c]]
    | p :: ps => (c :: p) :: ps

/-- `impl FromStr for Select` from src/sqlite/mod.rs: search the input for
the case-insensitive pattern `SELECT ([A-Za-z, ]+) FROM ([A-Za-z]+)`; on a
match the table name is group 2 and the columns are group 1 split on
`", "`; no match is the syntax error. -/
def selectFromStr (s : String) : Option Select :=
  (searchSelect s.data).map
    (fun g => { name := String.mk g.2, columns := (splitCommaSpace g.1).map String.mk })

/-- `BtreePageKind` from src/internals.rs. -/
inductive BtreePageKind where
  | interiorIndex
  | interiorTable
  | leafIndex
  | leafTable
deriving DecidableEq

/-- `BtreePageKind::is_interior` from src/internals.rs. -/
def BtreePageKind.is_interior : BtreePageKind → Bool
  | .interiorIndex | .interiorTable => true
  | _ => false

/-- `impl TryFrom<u8> for BtreePageKind` from src/internals.rs. -/
def BtreePageKind.tryFrom (value : Nat) : Option BtreePageKind :=
  if value = 2 then some .interiorIndex
  else if value = 5 then some .interiorTable
  else if value = 10 then some .leafIndex
  else if value = 13 then some .leafTable
  else none

/-- `BtreeHeader` from src/internals.rs (a second, structurally identical
header type). -/
structure IBtreeHeader where
  kind : BtreePageKind
  first_freeblock : Nat
  cell_count : Nat
  cell_contents : Nat
  fragmented_free_bytes : Nat
  rightmost_pointer : Option Nat
deriving DecidableEq

/-- `parse_btree_header` from src/internals.rs (its `parse_steps!` form
expands to the same sequential parse as the src/sqlite/mod.rs version). -/
def internals_parse_btree_header : List Nat → Option (List Nat × IBtreeHeader)
  | k :: f1 :: f0 :: c1 :: c0 :: s1 :: s0 :: fb :: r3 :: r2 :: r1 :: r0 :: rest =>
    (BtreePageKind.tryFrom k).map (fun kind =>
      (rest,
       { kind
         first_freeblock := f1 * 256 + f0
         cell_count := c1 * 256 + c0
         cell_contents := s1 * 256 + s0
         fragmented_free_bytes := fb
         rightmost_pointer :=
           if kind.is_interior then
             some (((r3 * 256 + r2) * 256 + r1) * 256 + r0)
           else none }))
  | _ => none

/-- `Page` from src/internals.rs (no parsed header field). -/
structure InternalsPage where
  page_id : Nat
  data : List Nat

/-- `SqliteFile::get_page` from src/internals.rs: the seek is
`SeekFrom::Current(page_id * page_size)` — relative to the current file
position `pos` — and `page_id` is used as a 0-based index.  A short read
is an error.  Returns the new file position together with the page. -/
def internalsGetPage (fileData : List Nat) (pos ps page_id : Nat) :
    Option (Nat × InternalsPage) :=
  let start := pos + page_id * ps
  if start + ps ≤ fileData.length then
    some (start + ps, { page_id, data := (fileData.drop start).take ps })
  else none

/-- `Page::get_header` from src/internals.rs: the 100-byte file-header skip
applies when `page_id == 0`. -/
def InternalsPage.get_header (p : InternalsPage) : Option IBtreeHeader :=
  let hdata := if p.page_id = 0 then p.data.drop 100 else p.data
  (internals_parse_btree_header hdata).map (fun r => r.2)

/-- `SqliteFile::get_page` from src/sqlite/mod.rs: seek to
`(page_id - 1) * page_size` from the start, read exactly `page_size`
bytes, and parse the b-tree header at in-page offset 100 when
`page_id == 1`, else 0.  `page_id` is a `NonZeroU64`. -/
def modGetPage (fileData : List Nat) (ps page_id : Nat) : Option Page :=
  let start := (page_id - 1) * ps
  if start + ps ≤ fileData.length then
    let data := (fileData.drop start).take ps
    let hdata := if page_id = 1 then data.drop 100 else data
    (parse_btree_header hdata).map
      (fun r => { page_id, data, header := r.2 })
  else none

/-- The kind byte a `PageKind` decodes from (for comparing the two header
types field by field). -/
def PageKind.code : PageKind → Nat
  | .indexInterior => 2
  | .tableInterior => 5
  | .indexLeaf => 10
  | .tableLeaf => 13

/-- The kind byte a `BtreePageKind` decodes from. -/
def BtreePageKind.code : BtreePageKind → Nat
  | .interiorIndex => 2
  | .interiorTable => 5
  | .leafIndex => 10
  | .leafTable => 13

/-- A header type shorn of its nominal wrapper, for cross-module
comparison. -/
def BtreeHeader.norm (h : BtreeHeader) :
    Nat × Nat × Nat × Nat × Nat × Option Nat :=
  (h.kind.code, h.first_freeblock, h.cell_count, h.cell_contents,
   h.fragmented_free_bytes, h.rightmost_pointer)

/-- Normalisation of the internals.rs header type. -/
def IBtreeHeader.norm (h : IBtreeHeader) :
    Nat × Nat × Nat × Nat × Nat × Option Nat :=
  (h.kind.code, h.first_freeblock, h.cell_count, h.cell_contents,
   h.fragmented_free_bytes, h.rightmost_pointer)

/-- A big-endian 16-bit value read at offset `o` of a byte list (used only
to state, independently of the iterator, where the cell pointers live). -/
def be16At (d : List Nat) (o : Nat) : Nat :=
  d.getD o 0 * 256 + d.getD (o + 1) 0

/-- Case-insensitive (ASCII) match of a character list against a literal. -/
def ciMatch : List Char → List Char → Bool
  | [], [] => true
  | x :: w, c :: lit => (x.toLower = c.toLower) && ciMatch w lit
  | _, _ => false

/-- A string contains, somewhere, a substring matching the case-insensitive
pattern `SELECT ([A-Za-z, ]+) FROM ([A-Za-z]+)` — the condition under which
the regex search of `impl FromStr for Select` succeeds. -/
def SelectOccurs (s : List Char) : Prop :=
  ∃ a w1 g1 w2 g2 c,
    s = a ++ w1 ++ g1 ++ w2 ++ g2 ++ c ∧
    ciMatch w1 litSelect = true ∧
    g1 ≠ [] ∧ (∀ x ∈ g1, cls1Ch x = true) ∧
    ciMatch w2 litFrom = true ∧
    g2 ≠ [] ∧ (∀ x ∈ g2, alphaCh x = true)

/-- Column names joined by the separator `", "`. -/
def joinCols (cols : List (List Char)) : List Char :=
  (cols.intersperse [',', ' ']).flatten

/-- Follows the spec's words (§4.5): the whole input is of the shape
`select <col>[, <col>...] from <name>`, case-insensitively, with `<col>`
and `<name>` nonempty alphabetic tokens.  This is the spec-side grammar
the claim compares the parser against. -/
def SpecSelectShape (s : List Char) : Prop :=
  ∃ w1 cols w2 nm,
    s = w1 ++ joinCols cols ++ w2 ++ nm ∧
    ciMatch w1 litSelect = true ∧
    cols ≠ [] ∧ (∀ c ∈ cols, c ≠ [] ∧ ∀ x ∈ c, alphaCh x = true) ∧
    ciMatch w2 litFrom = true ∧
    nm ≠ [] ∧ (∀ x ∈ nm, alphaCh x = true)

/-- Follows the claim's words (C8): the two's-complement value of a 48-bit
big-endian quantity. -/
def twosComp48 (raw : Nat) : Int :=
  if raw < 2 ^ 47 then (raw : Int) else (raw : Int) - 2 ^ 48

/-- A concrete page-1 buffer whose b-tree header (at offset 100) has an
interior kind: the kind byte is 5, one cell, the two bytes at offset 108
are the pointer 120, the two bytes at offset 112 are the pointer 126, a
table-interior cell (child 9, rowid 5) sits at offset 120 and another
(child 1, rowid 1) at offset 126.  `header` is exactly what
`parse_btree_header` yields on `data.drop 100`. -/
def c2CounterPage : Page :=
  { page_id := 1
    data := List.replicate 100 0 ++
      [5, 0, 0, 0, 1, 0, 0, 0, 0, 120, 0, 0, 0, 126] ++
      List.replicate 6 0 ++
      [0, 0, 0, 9, 5, 0, 0, 0, 0, 1, 1]
    header :=
      { kind := .tableInterior
        first_freeblock := 0
        cell_count := 1
        cell_contents := 0
        fragmented_free_bytes := 0
        rightmost_pointer := some (120 * 65536) } }

/-- A concrete non-first interior page: one cell pointer (16) at offset 12,
a table-interior cell (child 7, rowid 3) at offset 16. -/
def c2WitnessPage : Page :=
  { page_id := 2
    data := [5, 0, 0, 0, 1, 0, 0, 0, 0, 0, 0, 0, 0, 16, 0, 0, 0, 0, 0, 7, 3]
    header :=
      { kind := .tableInterior
        first_freeblock := 0
        cell_count := 1
        cell_contents := 0
        fragmented_free_bytes := 0
        rightmost_pointer := some 0 } }

/-- A concrete non-first table-leaf page declaring two cells whose pointer
array (at offset 8) is [20, 24]: the cell at offset 20 decodes fine
(rowid 5, payload [65, 66]), while the cell at offset 24 is a truncated
varint (a lone continuation byte 133 at the end of the page). -/
def c5Page : Page :=
  { page_id := 2
    data := [13, 0, 0, 0, 2, 0, 0, 0, 0, 20, 0, 24, 0, 0, 0, 0,
             0, 0, 0, 0, 2, 5, 65, 66, 133]
    header :=
      { kind := .tableLeaf
        first_freeblock := 0
        cell_count := 2
        cell_contents := 0
        fragmented_free_bytes := 0
        rightmost_pointer := none } }

/-- A concrete 2-page file of page size 128: the page at byte range
[0, 128) carries a leaf header with 7 cells at offset 100, the page at
[128, 256) a leaf header with 9 cells at offset 0. -/
def c10File : List Nat :=
  List.replicate 100 0 ++ [13, 0, 0, 0, 7, 0, 0, 0, 0, 0, 0, 0] ++
  List.replicate 16 0 ++ [13, 0, 0, 0, 9, 0, 0, 0, 0, 0, 0, 0] ++
  List.replicate 116 0

/-- Claim C1: on the §8 fixture row (stored record `[NULL, "a"]` with cell
row id 1, as SQLite stores an integer-primary-key alias), the query loop of
src/main.rs emits the stored `NULL` verbatim — the executor performs no
rowid substitution — so `select id, name from t` prints `NULL|a`, not the
`1|a` the claim requires. -/
theorem c1_no_rowid_substitution :
    rowOfCell (Cell.tableLeaf 1 { size := 4, payload := [3, 0, 15, 97], overflow := none }) =
      .ok [] [.null, .string "a"] ∧
    CreateTable.select
        { name := "t", columns := ["id", "name"], key := some "id" }
        { name := "t", columns := ["id", "name"] } = [0, 1] ∧
    queryRowLine [0, 1] [.null, .string "a"] = some "NULL|a" ∧
    ("NULL|a" : String) ≠ "1|a" := by
  refine ⟨by decide, by decide, by decide, by decide⟩

/-- Claim C4: a record payload whose serial-type header contains code 10
reaches the `unreachable!` arm of `impl From<u64> for RecordCode`
(src/sqlite/record.rs): decoding panics instead of returning a decode
error to the caller. -/
theorem c4_reserved_code_panics :
    parse_payload [2, 10] = .panic ∧ PayloadResult.panic ≠ PayloadResult.err := by
  refine ⟨by decide, by decide⟩

/-- Claim C5: on a page declaring two cells whose second cell is a
truncated varint, `CellIter::next` (src/sqlite/mod.rs) swallows the decode
failure via `.ok()?` and ends iteration, yielding a partial best-effort
sequence of one cell with no error surfaced; the header is exactly what
`parse_btree_header` produces from the page bytes. -/
theorem c5_partial_cells_on_error :
    c5Page.cells = some [Cell.tableLeaf 5 { size := 2, payload := [65, 66], overflow := none }] ∧
    c5Page.header.cell_count = 2 ∧
    parse_btree_header c5Page.data = some (c5Page.data.drop 12, c5Page.header) := by
  refine ⟨by decide, by decide, by decide⟩

/-- Counterexample to claim C2: for an interior page 1 the cell pointer
array is read starting at offset 108, not 112 — the code's `Page::cells`
decodes the cell addressed at offset 108's pointer (child 9, rowid 5),
while pointers read from offset 112 would address a different cell
(child 1, rowid 1). -/
theorem c2_counterexample_interior_page1 :
    c2CounterPage.cells = some [Cell.tableInterior 9 5] ∧
    cellIterGo c2CounterPage ((c2CounterPage.data.drop 112).take 2) =
      [Cell.tableInterior 1 1] ∧
    parse_btree_header (c2CounterPage.data.drop 100) =
      some (c2CounterPage.data.drop 112, c2CounterPage.header) ∧
    [Cell.tableInterior 9 5] ≠ [Cell.tableInterior 1 1] := by
  refine ⟨by decide, by decide, by decide, by decide⟩

/-- Counterexample to claim C3: `parse_btree_header` fails outright on an
8-byte leaf header (the claim says a leaf parse consumes exactly 8 bytes,
so it would have to succeed), and on a 12-byte leaf input it consumes all
12 bytes, leaving nothing rather than 4 bytes. -/
theorem c3_counterexample_leaf_consumes_12 :
    parse_btree_header [13, 0, 0, 0, 1, 0, 0, 0] = none ∧
    parse_btree_header [13, 0, 0, 0, 1, 0, 0, 0, 9, 9, 9, 9] =
      some ([],
        { kind := .tableLeaf, first_freeblock := 0, cell_count := 1,
          cell_contents := 0, fragmented_free_bytes := 0,
          rightmost_pointer := none }) := by
  refine ⟨by decide, by decide⟩

/-- Counterexample to claim C10: with the same page id 1 on a fresh file,
internals.rs `get_page` (0-based, seek from current position) reads the
byte range of the second page and parses its header at offset 0
(cell count 9), while sqlite/mod.rs `get_page` reads the first page and
parses at offset 100 (cell count 7): different ranges, different
headers. -/
theorem c10_counterexample_same_id_differs :
    ((internalsGetPage c10File 0 128 1).bind
        (fun r => r.2.get_header)).map (fun h => h.cell_count) = some 9 ∧
    (modGetPage c10File 128 1).map (fun pg => pg.header.cell_count) = some 7 ∧
    (internalsGetPage c10File 0 128 1).map (fun r => r.2.data) ≠
      (modGetPage c10File 128 1).map (fun pg => pg.data) := by
  refine ⟨by decide, by decide, by decide⟩

/-- Claim C3 (amended): an interior kind byte yields a present
right-most-pointer field and a leaf kind byte an absent one, but the parse
consumes exactly 12 input bytes in both cases — the trailing 4-byte field
is read unconditionally — so the consumed length does not differ between
the two cases. -/
theorem c3_amended_header_always_consumes_12 (input rest : List Nat)
    (hdr : BtreeHeader) (h : parse_btree_header input = some (rest, hdr)) :
    (hdr.rightmost_pointer.isSome = hdr.kind.is_interior) ∧
    input.length = rest.length + 12 ∧ rest = input.drop 12 := by
  unfold parse_btree_header at h
  split at h
  case _ k f1 f0 c1 c0 s1 s0 fb r3 r2 r1 r0 tail =>
    cases hk : PageKind.tryFrom k with
    | none => rw [hk] at h; simp at h
    | some kind =>
      rw [hk] at h
      simp only [Option.map_some', Option.some.injEq, Prod.mk.injEq] at h
      obtain ⟨h1, h2⟩ := h
      subst h1
      refine ⟨?_, by simp, by simp⟩
      rw [← h2]
      cases hki : kind.is_interior <;> simp [hki]
  case _ =>
    simp at h

/-- Witness for C3's amended theorem at a concrete interior-kind input. -/
theorem c3_amended_witness :
    ((({ kind := .indexInterior, first_freeblock := 0, cell_count := 3,
         cell_contents := 0, fragmented_free_bytes := 0,
         rightmost_pointer := some 1 } : BtreeHeader).rightmost_pointer.isSome =
       ({ kind := .indexInterior, first_freeblock := 0, cell_count := 3,
          cell_contents := 0, fragmented_free_bytes := 0,
          rightmost_pointer := some 1 } : BtreeHeader).kind.is_interior) ∧
     ([2, 0, 0, 0, 3, 0, 0, 0, 0, 0, 0, 1, 7] : List Nat).length =
       ([7] : List Nat).length + 12 ∧
     ([7] : List Nat) = ([2, 0, 0, 0, 3, 0, 0, 0, 0, 0, 0, 1, 7] : List Nat).drop 12) :=
  c3_amended_header_always_consumes_12 _ _ _ (by decide)

/-- Oring one byte below the low 8 bits of a shifted accumulator is the
same as the arithmetic `* 256 +` step. -/
theorem orByte (x b : Nat) (hb : b < 256) : (x <<< 8) ||| b = x * 256 + b := by
  have hb' : b < 2 ^ 8 := by omega
  calc (x <<< 8) ||| b = 2 ^ 8 * x ||| b := by
        rw [Nat.shiftLeft_eq, Nat.mul_comm]
    _ = 2 ^ 8 * x + b := (Nat.mul_add_lt_is_or hb' x).symm
    _ = x * 256 + b := by ring

/-- Oring the 16-high-bytes sign mask into a 48-bit value is addition. -/
theorem orMask48 (x : Nat) (hx : x < 2 ^ 48) :
    x ||| 0xffff000000000000 = x + 0xffff000000000000 := by
  calc x ||| 0xffff000000000000 = 2 ^ 48 * 65535 ||| x := by
        rw [Nat.lor_comm]
    _ = 2 ^ 48 * 65535 + x := (Nat.mul_add_lt_is_or hx 65535).symm
    _ = x + 0xffff000000000000 := by ring_nf

/-- The big-endian fold of the I48 arm computes the 48-bit big-endian
value of the 6 bytes. -/
theorem fold48 (b0 b1 b2 b3 b4 b5 : Nat) (h0 : b0 < 256) (h1 : b1 < 256)
    (h2 : b2 < 256) (h3 : b3 < 256) (h4 : b4 < 256) (h5 : b5 < 256) :
    List.foldl (fun x b => (x <<< 8) ||| b) 0 [b0, b1, b2, b3, b4, b5] =
      ((((b0 * 256 + b1) * 256 + b2) * 256 + b3) * 256 + b4) * 256 + b5 := by
  simp only [List.foldl]
  rw [orByte 0 b0 h0, orByte _ b1 h1, orByte _ b2 h2, orByte _ b3 h3,
     orByte _ b4 h4, orByte _ b5 h5]
  ring

/-- Claim C8: decoding serial-type code 5 consumes exactly 6 body bytes and
produces the two's-complement value of the 48 bits, negative exactly when
the top bit of the first byte is set. -/
theorem c8_i48_twos_complement (b0 b1 b2 b3 b4 b5 : Nat) (rest : List Nat)
    (h0 : b0 < 256) (h1 : b1 < 256) (h2 : b2 < 256) (h3 : b3 < 256)
    (h4 : b4 < 256) (h5 : b5 < 256) :
    RecordCode.parse .i48 (b0 :: b1 :: b2 :: b3 :: b4 :: b5 :: rest) =
      some (rest, .integer (twosComp48
        (((((b0 * 256 + b1) * 256 + b2) * 256 + b3) * 256 + b4) * 256 + b5))) ∧
    (twosComp48 (((((b0 * 256 + b1) * 256 + b2) * 256 + b3) * 256 + b4) * 256 + b5) < 0 ↔
      128 ≤ b0) := by
  set raw := ((((b0 * 256 + b1) * 256 + b2) * 256 + b3) * 256 + b4) * 256 + b5 with hraw
  have hrawlt : raw < 2 ^ 48 := by omega
  have hhigh : 2 ^ 47 ≤ raw ↔ 128 ≤ b0 := by omega
  constructor
  · show (match b0 :: b1 :: b2 :: b3 :: b4 :: b5 :: rest with
      | bb0 :: bb1 :: bb2 :: bb3 :: bb4 :: bb5 :: r =>
        let x : Nat := [bb0, bb1, bb2, bb3, bb4, bb5].foldl (fun x b => (x <<< 8) ||| b) 0
        let x : Nat := if 0x80 ≤ bb0 then x ||| 0xffff000000000000 else x
        some (r, Value.integer (u64ToI64 x))
      | _ => none) = some (rest, .integer (twosComp48 raw))
    simp only
    rw [fold48 b0 b1 b2 b3 b4 b5 h0 h1 h2 h3 h4 h5, ← hraw]
    by_cases hb : 0x80 ≤ b0
    · rw [if_pos hb, orMask48 raw hrawlt]
      have h63 : ¬ (raw + 0xffff000000000000 < 2 ^ 63) := by omega
      have h47 : ¬ (raw < 2 ^ 47) := by omega
      simp only [u64ToI64, twosComp48, if_neg h63, if_neg h47]
      push_cast
      ring_nf
    · rw [if_neg hb]
      have h63 : raw < 2 ^ 63 := by omega
      have h47 : raw < 2 ^ 47 := by omega
      simp only [u64ToI64, twosComp48, if_pos h63, if_pos h47]
  · unfold twosComp48
    split
    · constructor
      · intro hneg; exfalso; omega
      · intro hb; exfalso; omega
    · constructor
      · intro _; omega
      · intro _
        have : raw < 2 ^ 48 := hrawlt
        omega

/-- Witness for C8 at the concrete negative value −2
(six bytes ff ff ff ff ff fe). -/
theorem c8_i48_witness :
    RecordCode.parse .i48 [255, 255, 255, 255, 255, 254] =
      some ([], .integer (twosComp48
        (((((255 * 256 + 255) * 256 + 255) * 256 + 255) * 256 + 255) * 256 + 254))) ∧
    (twosComp48 (((((255 * 256 + 255) * 256 + 255) * 256 + 255) * 256 + 255) * 256 + 254) < 0 ↔
      128 ≤ 255) :=
  c8_i48_twos_complement 255 255 255 255 255 254 [] (by decide) (by decide)
    (by decide) (by decide) (by decide) (by decide)

/-- First index of an equal element, as an option: `position` succeeds with
the index of the first declared column equal to `c` exactly when `c` is
declared. -/
theorem findIdxEqOfMem (c : String) (l : List String) (h : c ∈ l) :
    l.findIdx? (fun cc => cc = c) = some (l.indexOf c) := by
  induction l with
  | nil => cases h
  | cons a t ih =>
    by_cases hac : a = c
    · subst hac
      simp [List.findIdx?_cons, List.indexOf_cons_self]
    · have hct : c ∈ t := by
        cases h with
        | head => exact absurd rfl hac
        | tail _ h => exact h
      simp only [List.findIdx?_cons, decide_eq_true_eq]
      rw [if_neg hac, List.findIdx?_succ, ih hct,
         List.indexOf_cons_ne _ (by simpa using hac)]
      rfl

/-- When `c` is not declared, `position` fails. -/
theorem findIdxEqOfNotMem (c : String) (l : List String) (h : c ∉ l) :
    l.findIdx? (fun cc => cc = c) = none := by
  rw [List.findIdx?_eq_none_iff]
  intro x hx
  simp only [decide_eq_false_iff_not]
  exact fun hxc => h (hxc ▸ hx)

/-- Claim C9: the computed projection is, in requested order, the index of
each requested column name within the declared column order, with
requested names absent from the declared columns silently dropped (the
projection is a total function; no error is produced). -/
theorem c9_projection_drops_unknown (ct : CreateTable) (sel : Select) :
    ct.select sel =
      (sel.columns.filter (fun c => c ∈ ct.columns)).map
        (fun c => ct.columns.indexOf c) := by
  unfold CreateTable.select
  induction sel.columns with
  | nil => rfl
  | cons c cs ih =>
    by_cases hm : c ∈ ct.columns
    · rw [List.filterMap_cons, findIdxEqOfMem c _ hm]
      simp only [List.filter_cons, decide_eq_true_eq, if_pos (by simpa using hm)]
      simp [ih]
    · rw [List.filterMap_cons, findIdxEqOfNotMem c _ hm]
      simp only [List.filter_cons]
      rw [if_neg (by simpa using hm)]
      exact ih

/-- Witness for C9 at a concrete table and selection with an unknown
requested column. -/
theorem c9_projection_witness :
    CreateTable.select
        { name := "t", columns := ["id", "name"], key := some "id" }
        { name := "t", columns := ["name", "bogus", "id"] } =
      ((["name", "bogus", "id"] : List String).filter
          (fun c => c ∈ (["id", "name"] : List String))).map
        (fun c => (["id", "name"] : List String).indexOf c) :=
  c9_projection_drops_unknown
    { name := "t", columns := ["id", "name"], key := some "id" }
    { name := "t", columns := ["name", "bogus", "id"] }

/-- Unfolding of `CellIter` over a pointer-array slice: if every pointer's
cell parses, the iterator returns exactly one cell per pointer, in
pointer-array order, each being the parse of the page bytes at the
corresponding big-endian 16-bit offset. -/
theorem cellIterGo_pointer_order (p : Page) :
    ∀ (n o : Nat), o + 2 * n ≤ p.data.length →
    (∀ i, i < n →
      (parse_cell p.header (p.data.drop (be16At p.data (o + 2 * i)))).isSome = true) →
    (cellIterGo p ((p.data.drop o).take (2 * n))).length = n ∧
    ∀ i, i < n → ∃ r c,
      (cellIterGo p ((p.data.drop o).take (2 * n))).get? i = some c ∧
      parse_cell p.header (p.data.drop (be16At p.data (o + 2 * i))) = some (r, c) := by
  intro n
  induction n with
  | zero =>
    intro o _ _
    constructor
    · simp [cellIterGo]
    · intro i hi; cases hi
  | succ n ih =>
    intro o hb hp
    have ho : o < p.data.length := by omega
    have ho1 : o + 1 < p.data.length := by omega
    have hd0 : p.data.drop o = p.data[o] :: p.data.drop (o + 1) :=
      List.drop_eq_getElem_cons ho
    have hd1 : p.data.drop (o + 1) = p.data[o + 1] :: p.data.drop (o + 2) :=
      List.drop_eq_getElem_cons ho1
    have htake : (p.data.drop o).take (2 * (n + 1)) =
        p.data[o] :: p.data[o + 1] :: ((p.data.drop (o + 2)).take (2 * n)) := by
      rw [show 2 * (n + 1) = (2 * n + 1) + 1 by ring, hd0, List.take_succ_cons,
         hd1, List.take_succ_cons]
    have hbe : be16At p.data (o + 2 * 0) = p.data[o] * 256 + p.data[o + 1] := by
      simp only [Nat.mul_zero, Nat.add_zero, be16At]
      rw [List.getD_eq_getElem _ _ ho, List.getD_eq_getElem _ _ ho1]
    obtain ⟨rc, hrc⟩ := Option.isSome_iff_exists.mp (hp 0 (Nat.succ_pos n))
    obtain ⟨r0, c0⟩ := rc
    have hgo : cellIterGo p ((p.data.drop o).take (2 * (n + 1))) =
        c0 :: cellIterGo p ((p.data.drop (o + 2)).take (2 * n)) := by
      rw [htake]
      simp only [cellIterGo]
      rw [← hbe, hrc]
    have ihspec := ih (o + 2) (by omega) (by
      intro i hi
      have := hp (i + 1) (by omega)
      rwa [show o + 2 * (i + 1) = o + 2 + 2 * i by ring] at this)
    constructor
    · rw [hgo]
      simp [ihspec.1]
    · intro i hi
      match i with
      | 0 =>
        refine ⟨r0, c0, ?_, ?_⟩
        · rw [hgo]; rfl
        · exact hrc
      | Nat.succ j =>
        obtain ⟨r, c, hg, hpar⟩ := ihspec.2 j (by omega)
        refine ⟨r, c, ?_, ?_⟩
        · rw [hgo]
          simpa using hg
        · rwa [show o + 2 * (j + 1) = o + 2 + 2 * j by ring]

/-- Claim C2 (amended): cell iteration reads one big-endian 16-bit pointer
per cell (length = `header.cell_count`) starting right after the page
header — 8 bytes for non-first leaf pages, 12 for non-first interior
pages, and a fixed 108 on page 1 (the code assumes page 1 is a leaf, so an
interior page 1 also starts at 108, not 112) — and yields cells in
pointer-array order. -/
theorem c2_amended_pointer_array (p : Page)
    (hbound : p.cellStart + p.header.cell_count * 2 ≤ p.data.length)
    (hparse : ∀ i, i < p.header.cell_count →
      (parse_cell p.header (p.data.drop (be16At p.data (p.cellStart + 2 * i)))).isSome = true) :
    ∃ l, p.cells = some l ∧ l.length = p.header.cell_count ∧
      (∀ i, i < p.header.cell_count → ∃ r c, l.get? i = some c ∧
        parse_cell p.header (p.data.drop (be16At p.data (p.cellStart + 2 * i))) = some (r, c)) ∧
      p.cellStart = (if p.page_id = 1 then 108
        else if p.header.kind.is_interior then 12 else 8) := by
  have hspec := cellIterGo_pointer_order p p.header.cell_count p.cellStart
    (by omega) hparse
  refine ⟨cellIterGo p p.ptrArray, ?_, ?_, ?_, rfl⟩
  · unfold Page.cells
    rw [if_pos hbound]
  · unfold Page.ptrArray
    rw [Nat.mul_comm p.header.cell_count 2]
    exact hspec.1
  · unfold Page.ptrArray
    rw [Nat.mul_comm p.header.cell_count 2]
    exact hspec.2

/-- Witness for C2's amended theorem on a concrete non-first interior
page. -/
theorem c2_amended_witness :
    ∃ l, c2WitnessPage.cells = some l ∧ l.length = c2WitnessPage.header.cell_count ∧
      (∀ i, i < c2WitnessPage.header.cell_count → ∃ r c, l.get? i = some c ∧
        parse_cell c2WitnessPage.header
          (c2WitnessPage.data.drop (be16At c2WitnessPage.data (c2WitnessPage.cellStart + 2 * i))) =
          some (r, c)) ∧
      c2WitnessPage.cellStart = (if c2WitnessPage.page_id = 1 then 108
        else if c2WitnessPage.header.kind.is_interior then 12 else 8) :=
  c2_amended_pointer_array c2WitnessPage (by decide)
    (fun i hi => by
      have hcc : c2WitnessPage.header.cell_count = 1 := rfl
      have hz : i = 0 := by omega
      subst hz
      decide)

/-- Consumption bound of the varint decoder: a successful decode leaves a
suffix of the input and consumes at most `9 - i` further bytes. -/
theorem varintGo_bound : ∀ (bs : List Nat) (acc i v : Nat) (rest : List Nat),
    i ≤ 8 → varintGo acc i bs = some (rest, v) →
    bs.length ≤ rest.length + (9 - i) ∧ rest <:+ bs := by
  intro bs
  induction bs with
  | nil => intro acc i v rest _ h; simp [varintGo] at h
  | cons b t ih =>
    intro acc i v rest hi h
    unfold varintGo at h
    by_cases h8 : i = 8
    · rw [if_pos h8] at h
      obtain ⟨h1, _⟩ := Prod.mk.injEq .. ▸ Option.some.injEq .. ▸ h
      subst h1
      subst h8
      exact ⟨by simp only [List.length_cons]; omega, List.suffix_cons b t⟩
    · rw [if_neg h8] at h
      by_cases hc : b < 128
      · rw [if_pos hc] at h
        obtain ⟨h1, _⟩ := Prod.mk.injEq .. ▸ Option.some.injEq .. ▸ h
        subst h1
        exact ⟨by simp only [List.length_cons]; omega, List.suffix_cons b t⟩
      · rw [if_neg hc] at h
        obtain ⟨hlen, hsuf⟩ := ih _ (i + 1) v rest (by omega) h
        refine ⟨by simp at hlen ⊢; omega, hsuf.trans (List.suffix_cons b t)⟩

/-- Truncation: if every remaining byte has the continuation bit set and
fewer than `9 - i` bytes remain, the decoder fails. -/
theorem varintGo_truncated : ∀ (bs : List Nat) (acc i : Nat),
    (∀ b ∈ bs, 128 ≤ b) → i + bs.length ≤ 8 → varintGo acc i bs = none := by
  intro bs
  induction bs with
  | nil => intro acc i _ _; rfl
  | cons b t ih =>
    intro acc i hall hlen
    unfold varintGo
    rw [if_neg (by simp at hlen; omega : ¬ i = 8),
       if_neg (by have := hall b (List.mem_cons_self b t); omega)]
    exact ih _ (i + 1) (fun x hx => hall x (List.mem_cons_of_mem b hx))
      (by simp at hlen; omega)

/-- Claim C6: varint decoding consumes at most 9 bytes and leaves a suffix
of its input; it fails when the input is exhausted before termination (all
continuation bits set, at most 8 bytes); and on the canonical encodings of
0, 127, 128, 2^21 − 1, 2^21 and 2^63 − 1 it returns the exact value
consuming 1, 1, 2, 3, 4 and 9 bytes respectively (the remaining input of
each is empty, the inputs having exactly those lengths). -/
theorem c6_varint_properties :
    (∀ bs rest v, varint bs = some (rest, v) →
       bs.length ≤ rest.length + 9 ∧ rest <:+ bs) ∧
    (∀ bs, (∀ b ∈ bs, 128 ≤ b) → bs.length ≤ 8 → varint bs = none) ∧
    varint [0] = some ([], 0) ∧
    varint [127] = some ([], 127) ∧
    varint [129, 0] = some ([], 128) ∧
    varint [255, 255, 127] = some ([], 2 ^ 21 - 1) ∧
    varint [129, 128, 128, 0] = some ([], 2 ^ 21) ∧
    varint [191, 255, 255, 255, 255, 255, 255, 255, 255] = some ([], 2 ^ 63 - 1) := by
  refine ⟨?_, ?_, by decide, by decide, by decide, by decide, by decide, by decide⟩
  · intro bs rest v h
    have := varintGo_bound bs 0 0 v rest (by omega) h
    exact ⟨by omega, this.2⟩
  · intro bs hall hlen
    exact varintGo_truncated bs 0 0 hall (by omega)

/-- Witness for C6 (truncation conjunct) at a concrete 2-byte
all-continuation input. -/
theorem c6_varint_witness : varint [200, 200] = none :=
  c6_varint_properties.2.1 [200, 200] (by decide) (by decide)

/-- The two copies of `parse_btree_header` (src/internals.rs and
src/sqlite/mod.rs) agree on every input, up to the nominal header types. -/
theorem header_parse_equiv (input : List Nat) :
    (internals_parse_btree_header input).map (fun r => r.2.norm) =
    (parse_btree_header input).map (fun r => r.2.norm) := by
  rcases input with _ | ⟨k, _ | ⟨f1, _ | ⟨f0, _ | ⟨c1, _ | ⟨c0, _ | ⟨s1, _ | ⟨s0,
    _ | ⟨fb, _ | ⟨r3, _ | ⟨r2, _ | ⟨r1, _ | ⟨r0, rest⟩⟩⟩⟩⟩⟩⟩⟩⟩⟩⟩⟩
  case cons.cons.cons.cons.cons.cons.cons.cons.cons.cons.cons.cons =>
    simp only [internals_parse_btree_header, parse_btree_header,
      BtreePageKind.tryFrom, PageKind.tryFrom]
    split_ifs <;>
      simp [IBtreeHeader.norm, BtreeHeader.norm, BtreePageKind.code,
        PageKind.code, BtreePageKind.is_interior, PageKind.is_interior]
  all_goals rfl

/-- Claim C10 (amended): the two page-fetch implementations are equivalent
only up to an index shift and a fresh file position: with the stream at
position 0, internals.rs `get_page (id − 1)` (0-based, seek from current)
followed by `get_header` reads the same `page_size`-byte range as
sqlite/mod.rs `get_page id` (1-based, seek from start) and parses the
b-tree header at the same in-page offset (100 exactly when `id = 1`),
yielding equal headers; with the same numeric id the two differ by one
page. -/
theorem c10_amended_shifted_equivalence (fileData : List Nat) (ps id : Nat)
    (hid : 1 ≤ id) :
    (internalsGetPage fileData 0 ps (id - 1)).bind
        (fun r => (r.2.get_header).map (fun h => (r.2.data, h.norm))) =
      (modGetPage fileData ps id).map (fun pg => (pg.data, pg.header.norm)) := by
  unfold internalsGetPage modGetPage
  simp only [Nat.zero_add]
  by_cases hb : (id - 1) * ps + ps ≤ fileData.length
  · rw [if_pos hb, if_pos hb]
    simp only [Option.some_bind]
    unfold InternalsPage.get_header
    simp only
    have hiff : ((id - 1 = 0) ↔ (id = 1)) := by omega
    by_cases h1 : id = 1
    · rw [if_pos (hiff.mpr h1), if_pos h1]
      have He := congrArg
        (Option.map (fun nh : Nat × Nat × Nat × Nat × Nat × Option Nat =>
          (((fileData.drop ((id - 1) * ps)).take ps), nh)))
        (header_parse_equiv (((fileData.drop ((id - 1) * ps)).take ps).drop 100))
      rw [Option.map_map, Option.map_map] at He
      rw [Option.map_map, Option.map_map]
      exact He
    · rw [if_neg (fun h => h1 (hiff.mp h)), if_neg h1]
      have He := congrArg
        (Option.map (fun nh : Nat × Nat × Nat × Nat × Nat × Option Nat =>
          (((fileData.drop ((id - 1) * ps)).take ps), nh)))
        (header_parse_equiv ((fileData.drop ((id - 1) * ps)).take ps))
      rw [Option.map_map, Option.map_map] at He
      rw [Option.map_map, Option.map_map]
      exact He
  · rw [if_neg hb, if_neg hb]
    rfl

/-- Witness for C10's amended theorem on the concrete 2-page file at
page id 2. -/
theorem c10_amended_witness :
    (internalsGetPage c10File 0 128 (2 - 1)).bind
        (fun r => (r.2.get_header).map (fun h => (r.2.data, h.norm))) =
      (modGetPage c10File 128 2).map (fun pg => (pg.data, pg.header.norm)) :=
  c10_amended_shifted_equivalence c10File 128 2 (by decide)

/-- A case-insensitive match has the literal's length. -/
theorem ciMatch_length : ∀ (w lit : List Char), ciMatch w lit = true →
    w.length = lit.length := by
  intro w
  induction w with
  | nil =>
    intro lit h
    cases lit with
    | nil => rfl
    | cons c l => simp [ciMatch] at h
  | cons x w ih =>
    intro lit h
    cases lit with
    | nil => simp [ciMatch] at h
    | cons c l =>
      simp only [ciMatch, Bool.and_eq_true, decide_eq_true_eq] at h
      simp [ih l h.2]

/-- Stripping a ci-literal decomposes the input. -/
theorem ciStrip_sound : ∀ (lit l r : List Char), ciStrip lit l = some r →
    ∃ w, l = w ++ r ∧ ciMatch w lit = true := by
  intro lit
  induction lit with
  | nil =>
    intro l r h
    refine ⟨[], ?_, rfl⟩
    simpa [ciStrip] using h
  | cons c lit ih =>
    intro l r h
    cases l with
    | nil => simp [ciStrip] at h
    | cons x l =>
      unfold ciStrip at h
      by_cases hx : x.toLower = c.toLower
      · rw [if_pos hx] at h
        obtain ⟨w, hw, hm⟩ := ih l r h
        exact ⟨x :: w, by simp [hw], by simp [ciMatch, hx, hm]⟩
      · rw [if_neg hx] at h
        cases h

/-- A ci-matching prefix strips cleanly. -/
theorem ciStrip_complete : ∀ (lit w r : List Char), ciMatch w lit = true →
    ciStrip lit (w ++ r) = some r := by
  intro lit
  induction lit with
  | nil =>
    intro w r h
    cases w with
    | nil => rfl
    | cons x w => simp [ciMatch] at h
  | cons c lit ih =>
    intro w r h
    cases w with
    | nil => simp [ciMatch] at h
    | cons x w =>
      simp only [ciMatch, Bool.and_eq_true, decide_eq_true_eq] at h
      simpa [ciStrip, h.1] using ih w r h.2

/-- The remainder-of-pattern check holds exactly on inputs of the form
ci-` FROM ` followed by an alphabetic character. -/
theorem fromOk_iff (l : List Char) :
    fromOk l = true ↔
      ∃ w2 c t, l = w2 ++ c :: t ∧ ciMatch w2 litFrom = true ∧ alphaCh c = true := by
  constructor
  · intro h
    unfold fromOk at h
    cases hs : ciStrip litFrom l with
    | none => rw [hs] at h; cases h
    | some m =>
      rw [hs] at h
      cases m with
      | nil => cases h
      | cons c t =>
        obtain ⟨w2, hw, hm⟩ := ciStrip_sound litFrom l (c :: t) hs
        exact ⟨w2, c, t, hw, hm, h⟩
  · rintro ⟨w2, c, t, rfl, hm, ha⟩
    unfold fromOk
    rw [ciStrip_complete litFrom w2 (c :: t) hm]
    exact ha

/-- Elements of a take within the `takeWhile` range satisfy the
predicate. -/
theorem take_all_of_le_takeWhile (l : List Char) (p : Char → Bool) (k : Nat)
    (hk : k ≤ (l.takeWhile p).length) : ∀ x ∈ l.take k, p x = true := by
  intro x hx
  obtain ⟨s, hs⟩ := List.takeWhile_prefix (l := l) p
  rw [← hs, List.take_append_eq_append_take,
     Nat.sub_eq_zero_of_le hk, List.take_zero, List.append_nil] at hx
  exact List.mem_takeWhile_imp (List.mem_of_mem_take hx)

/-- A run satisfying the predicate bounds `takeWhile`'s length from
below. -/
theorem takeWhile_length_ge (p : Char → Bool) :
    ∀ (g1 rest : List Char), (∀ x ∈ g1, p x = true) →
    g1.length ≤ ((g1 ++ rest).takeWhile p).length := by
  intro g1
  induction g1 with
  | nil => intro rest _; simp
  | cons x g1 ih =>
    intro rest hall
    rw [List.cons_append, List.takeWhile_cons_of_pos (hall x (List.mem_cons_self x g1))]
    simpa using ih rest (fun y hy => hall y (List.mem_cons_of_mem x hy))

/-- What a successful greedy first-group search tells us. -/
theorem tryGroup1_sound : ∀ (k : Nat) (rest g1 g2 : List Char),
    tryGroup1 rest k = some (g1, g2) →
    ∃ k', 1 ≤ k' ∧ k' ≤ k ∧ g1 = rest.take k' ∧
      fromOk (rest.drop k') = true ∧
      g2 = ((rest.drop k').drop 6).takeWhile alphaCh := by
  intro k
  induction k with
  | zero => intro rest g1 g2 h; cases h
  | succ k ih =>
    intro rest g1 g2 h
    unfold tryGroup1 at h
    by_cases hcond : fromOk (rest.drop (k + 1)) = true
    · rw [if_pos hcond] at h
      obtain ⟨h1, h2⟩ := Prod.mk.injEq .. ▸ Option.some.injEq .. ▸ h
      exact ⟨k + 1, by omega, by omega, h1.symm, hcond, h2.symm⟩
    · rw [if_neg hcond] at h
      obtain ⟨k', hk1, hk2, hg1, hok, hg2⟩ := ih rest g1 g2 h
      exact ⟨k', hk1, by omega, hg1, hok, hg2⟩

/-- If any viable give-back point exists below the bound, the greedy
search succeeds. -/
theorem tryGroup1_complete : ∀ (k : Nat) (rest : List Char),
    (∃ k', 1 ≤ k' ∧ k' ≤ k ∧ fromOk (rest.drop k') = true) →
    (tryGroup1 rest k).isSome = true := by
  intro k
  induction k with
  | zero => rintro rest ⟨k', hk1, hk2, _⟩; omega
  | succ k ih =>
    rintro rest ⟨k', hk1, hk2, hok⟩
    unfold tryGroup1
    by_cases hcond : fromOk (rest.drop (k + 1)) = true
    · rw [if_pos hcond]; rfl
    · rw [if_neg hcond]
      refine ih rest ⟨k', hk1, ?_, hok⟩
      rcases Nat.lt_or_ge k' (k + 1) with hlt | hge
      · omega
      · exfalso
        have : k' = k + 1 := by omega
        exact hcond (this ▸ hok)

/-- A successful anchored match decomposes the input into the pattern's
pieces. -/
theorem matchSelectAt_sound (s g1 g2 : List Char)
    (h : matchSelectAt s = some (g1, g2)) :
    ∃ w1 w2 c, s = w1 ++ g1 ++ w2 ++ g2 ++ c ∧
      ciMatch w1 litSelect = true ∧ g1 ≠ [] ∧ (∀ x ∈ g1, cls1Ch x = true) ∧
      ciMatch w2 litFrom = true ∧ g2 ≠ [] ∧ (∀ x ∈ g2, alphaCh x = true) := by
  unfold matchSelectAt at h
  cases hs : ciStrip litSelect s with
  | none => rw [hs] at h; cases h
  | some rest =>
    rw [hs] at h
    obtain ⟨w1, hw1dec, hw1⟩ := ciStrip_sound litSelect s rest hs
    obtain ⟨k', hk1, hk2, hg1, hok, hg2⟩ := tryGroup1_sound _ rest g1 g2 h
    obtain ⟨w2, cA, t, hdec, hw2, ha⟩ := (fromOk_iff _).mp hok
    have hw2len : w2.length = 6 := ciMatch_length w2 litFrom hw2
    have hdrop6 : (rest.drop k').drop 6 = cA :: t := by
      rw [hdec, ← hw2len, List.drop_left]
    have hg2' : g2 = cA :: t.takeWhile alphaCh := by
      rw [hg2, hdrop6, List.takeWhile_cons_of_pos ha]
    have hg2split : cA :: t = g2 ++ (cA :: t).dropWhile alphaCh := by
      rw [hg2, hdrop6]
      exact (List.takeWhile_append_dropWhile alphaCh (cA :: t)).symm
    have hk2' : k' ≤ rest.length :=
      le_trans hk2 (List.takeWhile_sublist _).length_le
    refine ⟨w1, w2, (cA :: t).dropWhile alphaCh, ?_, hw1, ?_, ?_, hw2, ?_, ?_⟩
    · rw [hw1dec, hg1]
      conv_lhs => rw [← List.take_append_drop k' rest, hdec, hg2split]
      simp [List.append_assoc]
    · rw [hg1]
      have : (rest.take k').length = k' := by
        rw [List.length_take]; omega
      intro hnil
      rw [hnil] at this
      simp at this
      omega
    · rw [hg1]
      exact take_all_of_le_takeWhile rest cls1Ch k' hk2
    · rw [hg2']
      simp
    · rw [hg2']
      intro x hx
      rcases List.mem_cons.mp hx with hx | hx
      · exact hx ▸ ha
      · exact List.mem_takeWhile_imp hx

/-- Any input containing the pattern's pieces at its head is matched. -/
theorem matchSelectAt_complete (w1 g1 w2 g2 c : List Char)
    (hw1 : ciMatch w1 litSelect = true) (hg1ne : g1 ≠ [])
    (hg1 : ∀ x ∈ g1, cls1Ch x = true) (hw2 : ciMatch w2 litFrom = true)
    (hg2ne : g2 ≠ []) (hg2 : ∀ x ∈ g2, alphaCh x = true) :
    (matchSelectAt (w1 ++ g1 ++ w2 ++ g2 ++ c)).isSome = true := by
  unfold matchSelectAt
  have hstrip : ciStrip litSelect (w1 ++ g1 ++ w2 ++ g2 ++ c) =
      some (g1 ++ w2 ++ g2 ++ c) := by
    have := ciStrip_complete litSelect w1 (g1 ++ w2 ++ g2 ++ c) hw1
    rw [← this]
    simp [List.append_assoc]
  rw [hstrip]
  apply tryGroup1_complete
  refine ⟨g1.length, ?_, ?_, ?_⟩
  · have := List.length_pos.mpr hg1ne
    omega
  · have := takeWhile_length_ge cls1Ch g1 (w2 ++ g2 ++ c) hg1
    simpa [List.append_assoc] using this
  · have hdrop : (g1 ++ w2 ++ g2 ++ c).drop g1.length = w2 ++ g2 ++ c := by
      rw [show g1 ++ w2 ++ g2 ++ c = g1 ++ (w2 ++ g2 ++ c) by simp [List.append_assoc],
         List.drop_left]
    rw [hdrop]
    cases g2 with
    | nil => exact absurd rfl hg2ne
    | cons cA g2t =>
      apply (fromOk_iff _).mpr
      exact ⟨w2, cA, g2t ++ c, by simp, hw2,
        hg2 cA (List.mem_cons_self cA g2t)⟩

/-- The unanchored search succeeds exactly when the pattern occurs
somewhere in the input. -/
theorem searchSelect_iff : ∀ (s : List Char),
    (searchSelect s).isSome = true ↔ SelectOccurs s := by
  intro s
  induction s with
  | nil =>
    constructor
    · intro h
      simp [searchSelect, matchSelectAt, ciStrip, litSelect] at h
    · rintro ⟨a, w1, g1, w2, g2, c, hs, hw1, _⟩
      exfalso
      have ha : a = [] := by
        cases a with
        | nil => rfl
        | cons y a => simp at hs
      subst ha
      have hw1nil : w1 = [] := by
        cases w1 with
        | nil => rfl
        | cons y w1 => simp at hs
      subst hw1nil
      simp [ciMatch, litSelect] at hw1
  | cons x t ih =>
    constructor
    · intro h
      unfold searchSelect at h
      cases hm : matchSelectAt (x :: t) with
      | some r =>
        obtain ⟨w1, w2, c, hdec, hw1, hg1ne, hg1, hw2, hg2ne, hg2⟩ :=
          matchSelectAt_sound (x :: t) r.1 r.2 (by rw [hm])
        exact ⟨[], w1, r.1, w2, r.2, c, by simpa using hdec,
          hw1, hg1ne, hg1, hw2, hg2ne, hg2⟩
      | none =>
        rw [hm] at h
        obtain ⟨a, w1, g1, w2, g2, c, hs, hrest⟩ := ih.mp h
        exact ⟨x :: a, w1, g1, w2, g2, c, by simp [hs], hrest⟩
    · rintro ⟨a, w1, g1, w2, g2, c, hs, hw1, hg1ne, hg1, hw2, hg2ne, hg2⟩
      unfold searchSelect
      cases a with
      | nil =>
        simp only [List.nil_append] at hs
        have := matchSelectAt_complete w1 g1 w2 g2 c hw1 hg1ne hg1 hw2 hg2ne hg2
        rw [← hs] at this
        cases hm : matchSelectAt (x :: t) with
        | some r => rfl
        | none => rw [hm] at this; cases this
      | cons y a =>
        have hxy : y = x ∧ t = a ++ w1 ++ g1 ++ w2 ++ g2 ++ c := by
          have : x :: t = y :: (a ++ w1 ++ g1 ++ w2 ++ g2 ++ c) := by
            simpa using hs
          exact ⟨(List.cons.injEq .. ▸ this).1.symm, (List.cons.injEq .. ▸ this).2⟩
        have ht : SelectOccurs t :=
          ⟨a, w1, g1, w2, g2, c, hxy.2, hw1, hg1ne, hg1, hw2, hg2ne, hg2⟩
        cases hm : matchSelectAt (x :: t) with
        | some r => rfl
        | none => exact ih.mpr ht

/-- Claim C7 (amended): parsing a string as a SELECT statement succeeds
exactly when the string CONTAINS a (case-insensitive) substring of the
shape `select <cols> from <name>` with `<cols>` a nonempty run of letters,
commas and spaces and `<name>` a nonempty run of letters — the regex
search is unanchored, so surrounding text does not cause a syntax
error. -/
theorem c7_amended_select_parse_iff_contains (s : String) :
    (selectFromStr s).isSome = true ↔ SelectOccurs s.data := by
  unfold selectFromStr
  rw [Option.isSome_map']
  exact searchSelect_iff s.data

/-- Witness for C7's amended theorem at a concrete well-formed query. -/
theorem c7_amended_witness :
    (selectFromStr "select a from t").isSome = true ↔
      SelectOccurs "select a from t".data :=
  c7_amended_select_parse_iff_contains "select a from t"

/-- The spec-side full-string grammar forces a leading (ci) `s`. -/
theorem specShape_head (s : List Char) (h : SpecSelectShape s) :
    ∃ x t, s = x :: t ∧ x.toLower = 's' := by
  obtain ⟨w1, cols, w2, nm, hs, hw1, _⟩ := h
  cases w1 with
  | nil => simp [ciMatch, litSelect] at hw1
  | cons x w1 =>
    simp only [ciMatch, litSelect, Bool.and_eq_true, decide_eq_true_eq] at hw1
    exact ⟨x, w1 ++ (joinCols cols ++ (w2 ++ nm)), by simp [hs, List.append_assoc],
      by simpa using hw1.1⟩

/-- Counterexample to claim C7: the input `xxselect a from txx` does not
match the spec's `select <col>[, <col>...] from <name>` shape (it does not
even start with `select`), yet the parser accepts it, because the regex
search is unanchored. -/
theorem c7_counterexample_unanchored :
    (selectFromStr "xxselect a from txx").isSome = true ∧
    ¬ SpecSelectShape "xxselect a from txx".data := by
  constructor
  · decide
  · intro h
    obtain ⟨x, t, hx, hlow⟩ := specShape_head _ h
    have hxx : x = 'x' := by
      have : ('x' : Char) :: "xselect a from txx".data = x :: t := hx
      exact ((List.cons.injEq .. ▸ this).1).symm
    rw [hxx] at hlow
    exact absurd hlow (by decide)

end Sqlite
